import Mathlib

set_option maxRecDepth 100000
set_option maxHeartbeats 2000000

/-!
# Verification of the JSON comparison engine (`compare_json_app.py`)

This file is a shallow embedding of the comparison engine of the
JSON-Comparison-Tool repository, together with proofs of the claims made
about it.

The embedded code consists of

* `parse_json_content` — the input-parsing wrapper around `json.loads`;
* `find_differences` — the core comparison: both inputs are rendered with
  `json.dumps(x, sort_keys=True, indent=2).splitlines()`, the renderings are
  compared with `difflib.unified_diff(..., n=0)`, the two header lines are
  dropped, and the remaining lines are partitioned by their leading `+`/`-`
  character.

Because the engine's behaviour is entirely determined by the Python standard
library functions it calls, the embedding models those functions faithfully:

* `json.dumps(x, sort_keys=True, indent=2)` — the recursive pretty printer of
  `json/encoder.py` (keys sorted, two-space indent, `ensure_ascii` string
  escaping, `NaN`/`Infinity`/`-Infinity` for non-finite floats since
  `allow_nan` defaults to `True`). The numeric model is restricted to
  integers plus the three non-finite float constants; finite non-integer
  floating point is outside this embedding.
* `difflib.unified_diff(a, b, n=0)` — `SequenceMatcher` without junk
  (inputs here are far below the 200-element `autojunk` threshold):
  `find_longest_match`, `get_matching_blocks`, `get_opcodes`,
  `get_grouped_opcodes` and the unified-format line generator.
* `json.loads` — a recursive-descent parser of the JSON grammar accepted by
  `json/decoder.py` (restricted to the integer numeric model above), with
  `JSONDecodeError` messages formatted as `msg: line L column C (char P)`.
-/

/-- The generic JSON tree produced by `json.loads`.  Numbers are modelled as
integers plus the three non-finite float constants accepted and emitted by
Python's `json` module; finite non-integer floats are outside the model. -/
inductive JsonValue where
  | null : JsonValue
  | bool (b : Bool) : JsonValue
  | int (n : Int) : JsonValue
  | nan : JsonValue
  | infinity : JsonValue
  | negInfinity : JsonValue
  | str (s : String) : JsonValue
  | arr (items : List JsonValue) : JsonValue
  | obj (entries : List (String × JsonValue)) : JsonValue

/-- Hexadecimal digit, lowercase, as produced by Python's `'\u%04x' % n`. -/
def hexDigit : Nat → Char
  | 0 => '0' | 1 => '1' | 2 => '2' | 3 => '3' | 4 => '4' | 5 => '5' | 6 => '6'
  | 7 => '7' | 8 => '8' | 9 => '9' | 10 => 'a' | 11 => 'b' | 12 => 'c'
  | 13 => 'd' | 14 => 'e' | _ => 'f'

/-- Four-digit lowercase hex rendering used in `\uXXXX` escapes. -/
def hex4 (n : Nat) : List Char :=
  [hexDigit (n / 4096 % 16), hexDigit (n / 256 % 16), hexDigit (n / 16 % 16),
    hexDigit (n % 16)]

/-- Escaping of one character per `json.encoder.py_encode_basestring_ascii`
(`ensure_ascii=True`, the `json.dumps` default): the seven short escapes,
`\uXXXX` for other characters outside `0x20`–`0x7e` (surrogate pairs above
`0xffff`), and the character itself otherwise. -/
def escapeChar (c : Char) : List Char :=
  if c = '\\' then ['\\', '\\']
  else if c = '"' then ['\\', '"']
  else if c = '\x08' then ['\\', 'b']
  else if c = '\x0c' then ['\\', 'f']
  else if c = '\n' then ['\\', 'n']
  else if c = '\r' then ['\\', 'r']
  else if c = '\t' then ['\\', 't']
  else if c.toNat < 0x20 ∨ 0x7e < c.toNat then
    if c.toNat < 0x10000 then '\\' :: 'u' :: hex4 c.toNat
    else
      ('\\' :: 'u' :: hex4 (0xd800 + (c.toNat - 0x10000) / 0x400)) ++
        ('\\' :: 'u' :: hex4 (0xdc00 + (c.toNat - 0x10000) % 0x400))
  else [c]

/-- JSON string literal rendering: quotes around the escaped characters. -/
def encodeString (s : String) : String :=
  String.mk ('"' :: (s.data.map escapeChar).flatten ++ ['"'])

/-- Python's `<` on strings: codepoint-lexicographic comparison of the
character sequences (the order `sorted` uses on the keys). -/
def charListLt : List Char → List Char → Bool
  | [], [] => false
  | [], _ :: _ => true
  | _ :: _, [] => false
  | c :: cs, d :: ds => if c < d then true else if d < c then false else charListLt cs ds

theorem charListLt_irrefl : ∀ l, charListLt l l = false
  | [] => rfl
  | c :: cs => by
    rw [charListLt, if_neg (lt_irrefl c), if_neg (lt_irrefl c)]
    exact charListLt_irrefl cs

theorem charListLt_asymm : ∀ a b, charListLt a b = true → charListLt b a = false := by
  intro a
  induction a with
  | nil =>
    intro b hb
    cases b with
    | nil => exact Bool.noConfusion hb
    | cons d ds => rfl
  | cons c cs ih =>
    intro b hb
    cases b with
    | nil => exact Bool.noConfusion hb
    | cons d ds =>
      rw [charListLt] at hb ⊢
      rcases lt_trichotomy c d with hlt | heq | hgt
      · rw [if_neg (asymm hlt), if_pos hlt]
      · subst heq
        rw [if_neg (lt_irrefl c), if_neg (lt_irrefl c)] at hb ⊢
        exact ih ds hb
      · rw [if_neg (asymm hgt), if_pos hgt] at hb
        exact Bool.noConfusion hb

theorem charListLt_trans :
    ∀ a b c, charListLt a b = true → charListLt b c = true → charListLt a c = true := by
  intro a
  induction a with
  | nil =>
    intro b c hab hbc
    cases b with
    | nil => exact Bool.noConfusion hab
    | cons d ds =>
      cases c with
      | nil => exact Bool.noConfusion hbc
      | cons e es => rfl
  | cons x xs ih =>
    intro b c hab hbc
    cases b with
    | nil => exact Bool.noConfusion hab
    | cons d ds =>
      cases c with
      | nil => exact Bool.noConfusion hbc
      | cons e es =>
        rw [charListLt] at hab hbc ⊢
        rcases lt_trichotomy x d with h1 | h1 | h1
        · rcases lt_trichotomy d e with h2 | h2 | h2
          · exact if_pos (lt_trans h1 h2)
          · subst h2
            exact if_pos h1
          · rw [if_neg (asymm h2), if_pos h2] at hbc
            exact Bool.noConfusion hbc
        · subst h1
          rw [if_neg (lt_irrefl x), if_neg (lt_irrefl x)] at hab
          rcases lt_trichotomy x e with h2 | h2 | h2
          · exact if_pos h2
          · subst h2
            rw [if_neg (lt_irrefl x), if_neg (lt_irrefl x)] at hbc ⊢
            exact ih ds es hab hbc
          · rw [if_neg (asymm h2), if_pos h2] at hbc
            exact Bool.noConfusion hbc
        · rw [if_neg (asymm h1), if_pos h1] at hab
          exact Bool.noConfusion hab

theorem charListLt_eq_of_false :
    ∀ a b, charListLt a b = false → charListLt b a = false → a = b := by
  intro a
  induction a with
  | nil =>
    intro b hab _
    cases b with
    | nil => rfl
    | cons d ds => exact Bool.noConfusion hab
  | cons x xs ih =>
    intro b hab hba
    cases b with
    | nil => exact Bool.noConfusion hba
    | cons d ds =>
      rw [charListLt] at hab hba
      rcases lt_trichotomy x d with h1 | h1 | h1
      · rw [if_pos h1] at hab
        exact Bool.noConfusion hab
      · subst h1
        rw [if_neg (lt_irrefl x), if_neg (lt_irrefl x)] at hab hba
        rw [ih ds hab hba]
      · rw [if_neg (asymm h1), if_pos h1] at hba
        exact Bool.noConfusion hba

theorem string_eq_of_data_eq (s t : String) (h : s.data = t.data) : s = t := by
  cases s
  cases t
  exact congrArg String.mk h

/-- Key order used by `json.dumps(..., sort_keys=True)`: Python's `sorted`
on the items compares the (unique) keys codepoint-lexicographically, i.e.
`p` precedes `q` when `q`'s key is not `<` `p`'s key. -/
def keyLE (p q : String × JsonValue) : Prop := charListLt q.1.data p.1.data = false

/-- The strict key order, used to see that a key-sorted entry list with
distinct keys is unique among its permutations. -/
def keyLT (p q : String × JsonValue) : Prop := charListLt p.1.data q.1.data = true

instance : DecidableRel keyLE :=
  fun p q => inferInstanceAs (Decidable (charListLt q.1.data p.1.data = false))

instance : IsTotal (String × JsonValue) keyLE :=
  ⟨fun p q => by
    cases h : charListLt q.1.data p.1.data with
    | false => exact Or.inl h
    | true => exact Or.inr (charListLt_asymm _ _ h)⟩

instance : IsTrans (String × JsonValue) keyLE :=
  ⟨fun p q r hpq hqr => by
    cases h : charListLt r.1.data p.1.data with
    | false => exact h
    | true =>
      exfalso
      cases h2 : charListLt p.1.data q.1.data with
      | false =>
        have hqp : q.1.data = p.1.data := charListLt_eq_of_false _ _ hpq h2
        have hqr2 : charListLt r.1.data q.1.data = false := hqr
        rw [hqp, h] at hqr2
        exact Bool.noConfusion hqr2
      | true =>
        have h3 := charListLt_trans _ _ _ h h2
        have hqr2 : charListLt r.1.data q.1.data = false := hqr
        rw [hqr2] at h3
        exact Bool.noConfusion h3⟩

instance : IsAntisymm (String × JsonValue) keyLT :=
  ⟨fun p q h h' => by
    have hf := charListLt_asymm _ _ h
    rw [h'] at hf
    exact Bool.noConfusion hf⟩

/-- `sorted(d.items())` of `json.dumps(..., sort_keys=True)`: a stable sort
of the entry list by key. -/
def sortEntries (entries : List (String × JsonValue)) : List (String × JsonValue) :=
  List.insertionSort keyLE entries

mutual

/-- Recursively sort the entry lists of all objects.  Rendering the result
without further sorting is the same as rendering the original value with
`sort_keys=True`. -/
def sortDeep : JsonValue → JsonValue
  | .obj entries => .obj (sortEntries (sortDeepEntries entries))
  | .arr items => .arr (sortDeepItems items)
  | v => v

def sortDeepItems : List JsonValue → List JsonValue
  | [] => []
  | v :: rest => sortDeep v :: sortDeepItems rest

def sortDeepEntries : List (String × JsonValue) → List (String × JsonValue)
  | [] => []
  | e :: rest => (e.1, sortDeep e.2) :: sortDeepEntries rest

end

mutual

/-- A computable structural size of a `JsonValue`, used only to supply
recursion fuel to the renderer (the automatically generated `sizeOf` has no
executable code for this nested inductive). -/
def jsonSize : JsonValue → Nat
  | .obj entries => 1 + jsonSizeEntries entries
  | .arr items => 1 + jsonSizeItems items
  | _ => 1

def jsonSizeItems : List JsonValue → Nat
  | [] => 1
  | v :: rest => 1 + jsonSize v + jsonSizeItems rest

def jsonSizeEntries : List (String × JsonValue) → Nat
  | [] => 1
  | e :: rest => 1 + jsonSize e.2 + jsonSizeEntries rest

end

/-- `indent=2` indentation for a nesting level. -/
def indentStr (level : Nat) : String := String.mk (List.replicate (2 * level) ' ')

/-- Prepend a string to the first line of a block of lines. -/
def glueFirst (pre : String) : List String → List String
  | [] => [pre]
  | l :: rest => (pre ++ l) :: rest

/-- Append the item separator `","` to the last line of a block of lines. -/
def addComma : List String → List String
  | [] => []
  | [l] => [l ++ ","]
  | l :: rest => l :: addComma rest

mutual

/-- The lines of `json.dumps(v, indent=2)` for an already key-sorted value
`v` at nesting depth `level` (the first line carries no indentation; the
caller glues it after the current line position).  Empty containers render
as the single lines `{}` / `[]`; non-empty containers are multi-line.
The structural `fuel` argument only pays for the recursion; `jsonSize v`
strictly dominates the recursion depth, so the `fuel = 0` fallback is
unreachable from `dumpsLines`. -/
def renderLines (fuel level : Nat) (v : JsonValue) : List String :=
  match fuel with
  | 0 => []
  | fuel + 1 =>
    match v with
    | .null => ["null"]
    | .bool true => ["true"]
    | .bool false => ["false"]
    | .int n => [toString n]
    | .nan => ["NaN"]
    | .infinity => ["Infinity"]
    | .negInfinity => ["-Infinity"]
    | .str s => [encodeString s]
    | .arr [] => ["[]"]
    | .arr (v :: rest) =>
      "[" :: (renderArrayItems fuel (level + 1) v rest ++ [indentStr level ++ "]"])
    | .obj [] => ["\x7b\x7d"]
    | .obj ((k, v) :: rest) =>
      "\x7b" :: (renderObjEntries fuel (level + 1) k v rest ++ [indentStr level ++ "\x7d"])

def renderArrayItems (fuel : Nat) (level : Nat) (v : JsonValue) (items : List JsonValue) :
    List String :=
  match fuel with
  | 0 => []
  | fuel + 1 =>
    match items with
    | [] => glueFirst (indentStr level) (renderLines fuel level v)
    | w :: rest =>
      addComma (glueFirst (indentStr level) (renderLines fuel level v)) ++
        renderArrayItems fuel level w rest

def renderObjEntries (fuel : Nat) (level : Nat) (k : String) (v : JsonValue)
    (entries : List (String × JsonValue)) : List String :=
  match fuel with
  | 0 => []
  | fuel + 1 =>
    match entries with
    | [] => glueFirst (indentStr level ++ encodeString k ++ ": ") (renderLines fuel level v)
    | (k', v') :: rest =>
      addComma (glueFirst (indentStr level ++ encodeString k ++ ": ") (renderLines fuel level v)) ++
        renderObjEntries fuel level k' v' rest

end

/-- `json.dumps(v, sort_keys=True, indent=2).splitlines()`: the canonical
multi-line rendering both inputs of `find_differences` are put through.
(`ensure_ascii` escaping leaves `\n` as the only line boundary character in
the dump, so `splitlines` splits exactly at the newlines the printer emits;
the embedding produces the line list directly.) -/
def dumpsLines (v : JsonValue) : List String :=
  renderLines (jsonSize (sortDeep v)) 0 (sortDeep v)

/-- `SequenceMatcher` run-length table: `runlen a b alo blo i j` is the length
of the longest common suffix of `a[alo..i]` and `b[blo..j]` ending exactly at
positions `i`/`j` — the value `newj2len[j]` holds after row `i` of the inner
loop of `difflib.SequenceMatcher.find_longest_match` (with `b2j` junk-free,
as `autojunk` never fires below 200 lines). -/
def runlen (a b : List String) (alo blo : Nat) : Nat → Nat → Nat
  | 0, j =>
    if alo = 0 ∧ blo ≤ j ∧ 0 < a.length ∧ j < b.length ∧ a.getD 0 "" = b.getD j "" then 1
    else 0
  | i + 1, 0 =>
    if alo ≤ i + 1 ∧ blo = 0 ∧ i + 1 < a.length ∧ 0 < b.length ∧
        a.getD (i + 1) "" = b.getD 0 "" then 1
    else 0
  | i + 1, j + 1 =>
    if alo ≤ i + 1 ∧ blo ≤ j + 1 ∧ i + 1 < a.length ∧ j + 1 < b.length ∧
        a.getD (i + 1) "" = b.getD (j + 1) "" then
      runlen a b alo blo i j + 1
    else 0

/-- The `(i, j)` cells visited by `find_longest_match`, in iteration order:
`i` ascending over `[alo, ahi)`, `j` ascending over `[blo, bhi)`. -/
def cells (alo ahi blo bhi : Nat) : List (Nat × Nat) :=
  (List.range' alo (ahi - alo)).flatMap fun i =>
    (List.range' blo (bhi - blo)).map fun j => (i, j)

/-- One step of the best-match scan: a cell replaces the current best triple
`(besti, bestj, bestsize)` only when its run is strictly longer (`if k >
bestsize` in `find_longest_match`), so the first maximal cell in iteration
order wins. -/
def flmStep (a b : List String) (alo blo : Nat) (best : Nat × Nat × Nat) (c : Nat × Nat) :
    Nat × Nat × Nat :=
  let k := runlen a b alo blo c.1 c.2
  if best.2.2 < k then (c.1 + 1 - k, c.2 + 1 - k, k) else best

/-- `difflib.SequenceMatcher.find_longest_match(alo, ahi, blo, bhi)` on the
junk-free matcher: returns `(besti, bestj, bestsize)`, initialised to
`(alo, blo, 0)`. -/
def findLongestMatch (a b : List String) (alo ahi blo bhi : Nat) : Nat × Nat × Nat :=
  (cells alo ahi blo bhi).foldl (flmStep a b alo blo) (alo, blo, 0)

theorem runlen_spec (a b : List String) (alo blo : Nat) :
    ∀ i j, runlen a b alo blo i j = 0 ∨
      (alo + runlen a b alo blo i j ≤ i + 1 ∧ blo + runlen a b alo blo i j ≤ j + 1 ∧
        i < a.length ∧ j < b.length) := by
  intro i
  induction i with
  | zero =>
    intro j
    rw [runlen]
    split
    · rename_i h
      exact Or.inr (by omega)
    · exact Or.inl rfl
  | succ i ih =>
    intro j
    cases j with
    | zero =>
      rw [runlen]
      split
      · rename_i h
        exact Or.inr (by omega)
      · exact Or.inl rfl
    | succ j =>
      rw [runlen]
      split
      · rename_i h
        rcases ih j with h0 | hb
        · rw [h0]; exact Or.inr (by omega)
        · exact Or.inr (by omega)
      · exact Or.inl rfl

theorem flm_foldl_cases (a b : List String) (alo blo : Nat) :
    ∀ (l : List (Nat × Nat)) (best : Nat × Nat × Nat),
      l.foldl (flmStep a b alo blo) best = best ∨
      ∃ c ∈ l, l.foldl (flmStep a b alo blo) best =
        (c.1 + 1 - runlen a b alo blo c.1 c.2, c.2 + 1 - runlen a b alo blo c.1 c.2,
          runlen a b alo blo c.1 c.2) ∧ 0 < runlen a b alo blo c.1 c.2 := by
  intro l
  induction l with
  | nil => intro best; exact Or.inl rfl
  | cons c l ih =>
    intro best
    rw [List.foldl_cons]
    by_cases hk : best.2.2 < runlen a b alo blo c.1 c.2
    · have hstep : flmStep a b alo blo best c =
          (c.1 + 1 - runlen a b alo blo c.1 c.2, c.2 + 1 - runlen a b alo blo c.1 c.2,
            runlen a b alo blo c.1 c.2) := by
        simp [flmStep, hk]
      rw [hstep]
      rcases ih (c.1 + 1 - runlen a b alo blo c.1 c.2, c.2 + 1 - runlen a b alo blo c.1 c.2,
          runlen a b alo blo c.1 c.2) with heq | ⟨c', hc', heq, hpos⟩
      · exact Or.inr ⟨c, List.mem_cons_self c l, heq, by omega⟩
      · exact Or.inr ⟨c', List.mem_cons_of_mem c hc', heq, hpos⟩
    · have hstep : flmStep a b alo blo best c = best := by
        simp [flmStep, hk]
      rw [hstep]
      rcases ih best with heq | ⟨c', hc', heq, hpos⟩
      · exact Or.inl heq
      · exact Or.inr ⟨c', List.mem_cons_of_mem c hc', heq, hpos⟩

theorem mem_cells {alo ahi blo bhi : Nat} {c : Nat × Nat} (h : c ∈ cells alo ahi blo bhi) :
    alo ≤ c.1 ∧ c.1 < ahi ∧ blo ≤ c.2 ∧ c.2 < bhi := by
  rcases List.mem_flatMap.mp h with ⟨i, hi, hc⟩
  rcases List.mem_map.mp hc with ⟨j, hj, rfl⟩
  rw [List.mem_range'_1] at hi hj
  omega

theorem findLongestMatch_window (a b : List String) (alo ahi blo bhi : Nat)
    (h : (findLongestMatch a b alo ahi blo bhi).2.2 ≠ 0) :
    alo ≤ (findLongestMatch a b alo ahi blo bhi).1 ∧
    (findLongestMatch a b alo ahi blo bhi).1 + (findLongestMatch a b alo ahi blo bhi).2.2 ≤ ahi ∧
    blo ≤ (findLongestMatch a b alo ahi blo bhi).2.1 ∧
    (findLongestMatch a b alo ahi blo bhi).2.1 + (findLongestMatch a b alo ahi blo bhi).2.2 ≤ bhi := by
  rcases flm_foldl_cases a b alo blo (cells alo ahi blo bhi) (alo, blo, 0) with heq | ⟨c, hc, heq, hpos⟩
  · rw [findLongestMatch] at h
    rw [heq] at h
    simp at h
  · have hwin := mem_cells hc
    have hrun := runlen_spec a b alo blo c.1 c.2
    rcases hrun with h0 | hb
    · omega
    · rw [findLongestMatch]
      rw [heq]
      simp only
      omega

/-- The recursive divide-and-conquer phase of
`SequenceMatcher.get_matching_blocks`: find the longest matching block of the
window, recurse on the region before it and the region after it.  (The
Python version drives this with an explicit stack and then sorts; the
regions are independent and this recursion emits the same blocks already in
sorted order.)  The structural `fuel` argument only pays for the recursion:
by `findLongestMatch_window` both recursive windows are strictly narrower in
the `a` direction, so the `ahi - alo + 1` fuel that `getMatchingBlocks`
supplies is never exhausted. -/
def matchBlocks (fuel : Nat) (a b : List String) (alo ahi blo bhi : Nat) :
    List (Nat × Nat × Nat) :=
  match fuel with
  | 0 => []
  | fuel + 1 =>
    if (findLongestMatch a b alo ahi blo bhi).2.2 = 0 then []
    else
      matchBlocks fuel a b alo (findLongestMatch a b alo ahi blo bhi).1 blo
          (findLongestMatch a b alo ahi blo bhi).2.1 ++
        findLongestMatch a b alo ahi blo bhi ::
          matchBlocks fuel a b
            ((findLongestMatch a b alo ahi blo bhi).1 + (findLongestMatch a b alo ahi blo bhi).2.2)
            ahi
            ((findLongestMatch a b alo ahi blo bhi).2.1 + (findLongestMatch a b alo ahi blo bhi).2.2)
            bhi

/-- The adjacent-block merging loop at the end of `get_matching_blocks`
(running state `(i1, j1, k1)` starts at `(0, 0, 0)`; a block adjacent to the
current one extends it, otherwise the current block is emitted if
non-trivial). -/
def collapseLoop (cur : Nat × Nat × Nat) : List (Nat × Nat × Nat) → List (Nat × Nat × Nat)
  | [] => if cur.2.2 ≠ 0 then [cur] else []
  | blk :: rest =>
    if cur.1 + cur.2.2 = blk.1 ∧ cur.2.1 + cur.2.2 = blk.2.1 then
      collapseLoop (cur.1, cur.2.1, cur.2.2 + blk.2.2) rest
    else if cur.2.2 ≠ 0 then cur :: collapseLoop blk rest
    else collapseLoop blk rest

/-- `SequenceMatcher.get_matching_blocks`: recursive block search, adjacent
merge, and the `(len(a), len(b), 0)` sentinel. -/
def getMatchingBlocks (a b : List String) : List (Nat × Nat × Nat) :=
  collapseLoop (0, 0, 0) (matchBlocks (a.length + 1) a b 0 a.length 0 b.length) ++
    [(a.length, b.length, 0)]

/-- The four opcode tags of `SequenceMatcher.get_opcodes`. -/
inductive Tag where
  | replace : Tag
  | delete : Tag
  | insert : Tag
  | equal : Tag
deriving DecidableEq, Repr

/-- One `(tag, i1, i2, j1, j2)` opcode. -/
structure Opcode where
  tag : Tag
  i1 : Nat
  i2 : Nat
  j1 : Nat
  j2 : Nat
deriving DecidableEq, Repr

/-- The loop of `SequenceMatcher.get_opcodes`: walk the matching blocks with
a cursor `(i, j)`, emitting a replace/delete/insert opcode for the gap before
each block and an equal opcode for the block itself. -/
def opcodesLoop (i j : Nat) : List (Nat × Nat × Nat) → List Opcode
  | [] => []
  | blk :: rest =>
    (if i < blk.1 ∧ j < blk.2.1 then [⟨.replace, i, blk.1, j, blk.2.1⟩]
      else if i < blk.1 then [⟨.delete, i, blk.1, j, blk.2.1⟩]
      else if j < blk.2.1 then [⟨.insert, i, blk.1, j, blk.2.1⟩]
      else []) ++
    (if blk.2.2 ≠ 0 then
        [⟨.equal, blk.1, blk.1 + blk.2.2, blk.2.1, blk.2.1 + blk.2.2⟩]
      else []) ++
    opcodesLoop (blk.1 + blk.2.2) (blk.2.1 + blk.2.2) rest

/-- `SequenceMatcher.get_opcodes`. -/
def getOpcodes (a b : List String) : List Opcode := opcodesLoop 0 0 (getMatchingBlocks a b)

/-- The leading-group fixup of `get_grouped_opcodes`: shrink an initial
equal opcode to at most `n` context lines. -/
def fixLead (n : Nat) : List Opcode → List Opcode
  | [] => []
  | c :: rest =>
    if c.tag = .equal then
      { c with i1 := max c.i1 (c.i2 - n), j1 := max c.j1 (c.j2 - n) } :: rest
    else c :: rest

/-- The trailing-group fixup of `get_grouped_opcodes`: shrink a final equal
opcode to at most `n` context lines. -/
def fixTrail (n : Nat) : List Opcode → List Opcode
  | [] => []
  | [c] =>
    if c.tag = .equal then
      [{ c with i2 := min c.i2 (c.i1 + n), j2 := min c.j2 (c.j1 + n) }]
    else [c]
  | c :: rest => c :: fixTrail n rest

/-- The grouping loop of `get_grouped_opcodes`: an equal opcode wider than
`2n` ends the current group (truncated to `n` context lines on each side);
the final group is emitted unless it is a single equal opcode. -/
def groupLoop (n : Nat) (group : List Opcode) : List Opcode → List (List Opcode)
  | [] =>
    match group with
    | [] => []
    | [c] => if c.tag = .equal then [] else [[c]]
    | _ => [group]
  | c :: rest =>
    if c.tag = .equal ∧ n + n < c.i2 - c.i1 then
      (group ++ [{ c with i2 := min c.i2 (c.i1 + n), j2 := min c.j2 (c.j1 + n) }]) ::
        groupLoop n [{ c with i1 := max c.i1 (c.i2 - n), j1 := max c.j1 (c.j2 - n) }] rest
    else groupLoop n (group ++ [c]) rest

/-- The `if not codes: codes = [("equal", 0, 1, 0, 1)]` placeholder of
`get_grouped_opcodes`. -/
def padCodes (codes : List Opcode) : List Opcode :=
  match codes with
  | [] => [⟨.equal, 0, 1, 0, 1⟩]
  | _ => codes

/-- `SequenceMatcher.get_grouped_opcodes(n)` (the app calls it through
`difflib.unified_diff(..., n=0)`): opcodes, the `[("equal", 0, 1, 0, 1)]`
placeholder for an empty opcode list, both fixups, and the grouping loop. -/
def getGroupedOpcodes (n : Nat) (a b : List String) : List (List Opcode) :=
  groupLoop n [] (fixTrail n (fixLead n (padCodes (getOpcodes a b))))

/-- `difflib._format_range_unified`. -/
def formatRangeUnified (start stop : Nat) : String :=
  if stop - start = 1 then toString (start + 1)
  else if stop - start = 0 then toString start ++ "," ++ toString (stop - start)
  else toString (start + 1) ++ "," ++ toString (stop - start)

/-- Python slice `a[i1:i2]` (indices here always satisfy `i1 ≤ i2 ≤ len`). -/
def pySlice (a : List String) (i1 i2 : Nat) : List String := (a.drop i1).take (i2 - i1)

/-- The lines `unified_diff` emits for one opcode: `' '`-prefixed context
for equal, `'-'`-prefixed `a`-lines for replace/delete then `'+'`-prefixed
`b`-lines for replace/insert. -/
def opcodeLines (a b : List String) (c : Opcode) : List String :=
  match c.tag with
  | .equal => (pySlice a c.i1 c.i2).map (fun l => " " ++ l)
  | .replace =>
    (pySlice a c.i1 c.i2).map (fun l => "-" ++ l) ++
      (pySlice b c.j1 c.j2).map (fun l => "+" ++ l)
  | .delete => (pySlice a c.i1 c.i2).map (fun l => "-" ++ l)
  | .insert => (pySlice b c.j1 c.j2).map (fun l => "+" ++ l)

/-- The `@@ -r1 +r2 @@` line of a group (`lineterm='\n'` appended, as in
`unified_diff`'s default). -/
def hunkHeader (r1 r2 : String) : String := "@@ -" ++ r1 ++ " +" ++ r2 ++ " @@\n"

/-- All lines `unified_diff` emits for one group. -/
def groupLines (a b : List String) (g : List Opcode) : List String :=
  hunkHeader
      (formatRangeUnified (g.headD ⟨.equal, 0, 0, 0, 0⟩).i1 (g.getLastD ⟨.equal, 0, 0, 0, 0⟩).i2)
      (formatRangeUnified (g.headD ⟨.equal, 0, 0, 0, 0⟩).j1 (g.getLastD ⟨.equal, 0, 0, 0, 0⟩).j2) ::
    g.flatMap (opcodeLines a b)

/-- `list(difflib.unified_diff(a, b, n=0))`: nothing at all when there are no
groups, otherwise the two `--- `/`+++ ` header lines (empty file names, the
default `lineterm='\n'` appended) followed by each group's lines. -/
def unifiedDiffLines (a b : List String) : List String :=
  match getGroupedOpcodes 0 a b with
  | [] => []
  | g :: gs => "--- \n" :: "+++ \n" :: (g :: gs).flatMap (groupLines a b)

/-- Python's `line.startswith(c)` for a single-character prefix: test the
first character. -/
def startsWithChar (line : String) (c : Char) : Bool :=
  match line.data with
  | [] => false
  | d :: _ => d == c

/-- Python's `line[1:]`: drop the first character. -/
def pyTail (line : String) : String := String.mk line.data.tail

/-- The dictionary `find_differences` returns: fields `added_to_json2`,
`removed_from_json1` and `total_changes`. -/
structure DiffSummary where
  added_to_json2 : List String
  removed_from_json1 : List String
  total_changes : Nat
deriving DecidableEq, Repr

/-- `find_differences(json1, json2)` from `compare_json_app.py`: dump both
values (`sort_keys=True, indent=2`, split into lines), run
`difflib.unified_diff(..., n=0)`, drop the first two lines when more than two
are present (the `--- `/`+++ ` headers), then collect `line[1:]` for the
lines starting with `'+'` as additions and those starting with `'-'` as
removals; `total_changes` is the sum of both counts. -/
def find_differences (json1 json2 : JsonValue) : DiffSummary :=
  let json1_str := dumpsLines json1
  let json2_str := dumpsLines json2
  let diff0 := unifiedDiffLines json1_str json2_str
  let diff := if 2 < diff0.length then diff0.drop 2 else diff0
  let added := (diff.filter fun l => startsWithChar l '+').map pyTail
  let removed := (diff.filter fun l => startsWithChar l '-').map pyTail
  { added_to_json2 := added
    removed_from_json1 := removed
    total_changes := added.length + removed.length }

/-- JSON whitespace (`json.decoder.WHITESPACE_STR`). -/
def isJsonWs (c : Char) : Bool := c == ' ' || c == '\t' || c == '\n' || c == '\r'

/-- Skip whitespace, tracking the absolute character position. -/
def skipWs : List Char → Nat → List Char × Nat
  | [], pos => ([], pos)
  | c :: cs, pos => if isJsonWs c then skipWs cs (pos + 1) else (c :: cs, pos)

/-- `JSONDecodeError.__str__`: Python computes `lineno` as one plus the
newlines before `pos` and `colno` as the distance to the previous newline
(one-based), and renders `"%s: line %d column %d (char %d)"`. -/
def jsonErrFmt (doc : String) (msg : String) (pos : Nat) : String :=
  msg ++ ": line " ++ toString (((doc.data.take pos).filter fun c => c == '\n').length + 1) ++
    " column " ++ toString (((doc.data.take pos).reverse.takeWhile fun c => c != '\n').length + 1) ++
    " (char " ++ toString pos ++ ")"

/-- Value of a hexadecimal digit, if any. -/
def hexDigitVal (c : Char) : Option Nat :=
  if '0' ≤ c ∧ c ≤ '9' then some (c.toNat - 48)
  else if 'a' ≤ c ∧ c ≤ 'f' then some (c.toNat - 87)
  else if 'A' ≤ c ∧ c ≤ 'F' then some (c.toNat - 70)
  else none

/-- The four hex digits of a `\uXXXX` escape (`json.decoder._decode_uXXXX`). -/
def parse4Hex : List Char → Option Nat
  | c1 :: c2 :: c3 :: c4 :: _ =>
    match hexDigitVal c1, hexDigitVal c2, hexDigitVal c3, hexDigitVal c4 with
    | some h1, some h2, some h3, some h4 => some (((h1 * 16 + h2) * 16 + h3) * 16 + h4)
    | _, _, _, _ => none
  | _ => none

/-- The short escapes of `json.decoder.BACKSLASH`. -/
def backslashChar (c : Char) : Option Char :=
  if c = '"' then some '"'
  else if c = '\\' then some '\\'
  else if c = '/' then some '/'
  else if c = 'b' then some '\x08'
  else if c = 'f' then some '\x0c'
  else if c = 'n' then some '\n'
  else if c = 'r' then some '\r'
  else if c = 't' then some '\t'
  else none

/-- `json.decoder.py_scanstring`, called just after the opening quote at
absolute position `pos`, with the string's opening quote at `beginPos`.
Returns the decoded string, the remaining characters and the position after
the closing quote.  Model restrictions: a lone surrogate `\uXXXX` (which a
Python `str` can carry but a Lean `Char` cannot) decodes to `U+0000`, and
the `repr` of the offending character that Python appends to the
`Invalid \escape` / `Invalid control character at` message bodies is
omitted.  A `\uXXXX` escape with fewer than four (or non-hex) digits is
`Invalid \uXXXX escape`, as in `_decode_uXXXX`.  `strConsResult` prepends a
decoded character to the result of scanning the remainder of the string.
The structural `fuel` argument only pays for the recursion (every step
consumes at least one character, so the `length + 1` fuel callers supply is
never exhausted). -/
def strConsResult (c : Char) :
    Except (String × Nat) (String × List Char × Nat) →
      Except (String × Nat) (String × List Char × Nat)
  | .ok (s, r, p) => .ok (String.mk (c :: s.data), r, p)
  | .error e => .error e

def scanString (fuel : Nat) (beginPos : Nat) : List Char → Nat →
    Except (String × Nat) (String × List Char × Nat) :=
  match fuel with
  | 0 => fun _ _ => .error ("Unterminated string starting at", beginPos)
  | fuel + 1 => fun cs pos =>
    match cs, pos with
    | [], _ => .error ("Unterminated string starting at", beginPos)
      | '"' :: rest, pos => .ok ("", rest, pos + 1)
      | '\\' :: 'u' :: c1 :: c2 :: c3 :: c4 :: rest, pos =>
        match hexDigitVal c1, hexDigitVal c2, hexDigitVal c3, hexDigitVal c4 with
        | some h1, some h2, some h3, some h4 =>
          let n1 := ((h1 * 16 + h2) * 16 + h3) * 16 + h4
          if 0xd800 ≤ n1 ∧ n1 ≤ 0xdbff then
            match rest with
            | '\\' :: 'u' :: d1 :: d2 :: d3 :: d4 :: rest2 =>
              match hexDigitVal d1, hexDigitVal d2, hexDigitVal d3, hexDigitVal d4 with
              | some g1, some g2, some g3, some g4 =>
                let n2 := ((g1 * 16 + g2) * 16 + g3) * 16 + g4
                if 0xdc00 ≤ n2 ∧ n2 ≤ 0xdfff then
                  strConsResult (Char.ofNat (0x10000 + (n1 - 0xd800) * 0x400 + (n2 - 0xdc00)))
                    (scanString fuel beginPos rest2 (pos + 12))
                else
                  strConsResult (Char.ofNat n1) (scanString fuel beginPos rest (pos + 6))
              | _, _, _, _ => .error ("Invalid \\uXXXX escape", pos + 7)
            | '\\' :: 'u' :: _ => .error ("Invalid \\uXXXX escape", pos + 7)
            | _ => strConsResult (Char.ofNat n1) (scanString fuel beginPos rest (pos + 6))
          else
            strConsResult (Char.ofNat n1) (scanString fuel beginPos rest (pos + 6))
        | _, _, _, _ => .error ("Invalid \\uXXXX escape", pos + 1)
      | '\\' :: 'u' :: _, pos => .error ("Invalid \\uXXXX escape", pos + 1)
      | ['\\'], _ => .error ("Unterminated string starting at", beginPos)
      | '\\' :: e :: rest, pos =>
        match backslashChar e with
        | none => .error ("Invalid \\escape", pos)
        | some c => strConsResult c (scanString fuel beginPos rest (pos + 2))
      | c :: rest, pos =>
        if c.toNat < 0x20 then .error ("Invalid control character at", pos)
        else strConsResult c (scanString fuel beginPos rest (pos + 1))

/-- Does a fraction or exponent follow the integer part of a number literal
(the `(\.\d+)?([eE][-+]?\d+)?` groups of `json.scanner.NUMBER_RE`)?  Such
numbers become Python floats, which are outside this embedding's numeric
model. -/
def hasFracOrExp : List Char → Bool
  | '.' :: c :: _ => c.isDigit
  | 'e' :: '+' :: c :: _ => c.isDigit
  | 'e' :: '-' :: c :: _ => c.isDigit
  | 'e' :: c :: _ => c.isDigit
  | 'E' :: '+' :: c :: _ => c.isDigit
  | 'E' :: '-' :: c :: _ => c.isDigit
  | 'E' :: c :: _ => c.isDigit
  | _ => false

/-- The integer part of `json.scanner.NUMBER_RE`: `-?(0|[1-9]\d*)`.  Returns
the value, the remaining characters and the new position; `none` when the
regex does not match at this position, and also (model restriction) when a
fraction or exponent follows, since the resulting float is unrepresentable
here. -/
def matchNumber (cs : List Char) (pos : Nat) : Option (Int × List Char × Nat) :=
  let neg : Bool := match cs with | '-' :: _ => true | _ => false
  let cs1 := if neg then cs.drop 1 else cs
  let pos1 := if neg then pos + 1 else pos
  match cs1 with
  | '0' :: rest =>
    if hasFracOrExp rest then none
    else some (if neg then -0 else 0, rest, pos1 + 1)
  | c :: rest =>
    if c.isDigit then
      let ds := rest.takeWhile Char.isDigit
      let rest' := rest.dropWhile Char.isDigit
      if hasFracOrExp rest' then none
      else
        let v : Int := (ds.foldl (fun n d => n * 10 + (d.toNat - 48)) (c.toNat - 48) : Nat)
        some (if neg then -v else v, rest', pos1 + 1 + ds.length)
    else none
  | [] => none

/-- Merge a parsed key/value list exactly as Python's `dict(pairs)` does:
the first occurrence of a key fixes its position, a later duplicate
overwrites its value. -/
def dictInsert : List (String × JsonValue) → String → JsonValue → List (String × JsonValue)
  | [], k, v => [(k, v)]
  | (k', v') :: rest, k, v =>
    if k' = k then (k', v) :: rest else (k', v') :: dictInsert rest k v

/-- `dict(pairs)` over the pair list accumulated by the object scanner. -/
def dictOfPairs (pairs : List (String × JsonValue)) : List (String × JsonValue) :=
  pairs.foldl (fun acc kv => dictInsert acc kv.1 kv.2) []

mutual

/-- `json.scanner.py_make_scanner._scan_once` (grammar restricted to the
integer numeric model): dispatch on the first character; `null`, `true`,
`false` literals; the number regex; then the `NaN`, `Infinity`, `-Infinity`
constants; otherwise `Expecting value` at this position.  `fuel` only pays
for the recursion and exceeds any possible nesting at the initial value
`json_loads` supplies. -/
def scanValue (fuel : Nat) (cs : List Char) (pos : Nat) :
    Except (String × Nat) (JsonValue × List Char × Nat) :=
  match fuel with
  | 0 => .error ("Expecting value", pos)
  | fuel + 1 =>
    match cs with
    | [] => .error ("Expecting value", pos)
    | c :: rest =>
      if c = '"' then
        match scanString (rest.length + 1) pos rest (pos + 1) with
        | .ok (s, r, p) => .ok (.str s, r, p)
        | .error e => .error e
      else if c = '{' then scanObject fuel rest (pos + 1)
      else if c = '[' then scanArray fuel rest (pos + 1)
      else if cs.take 4 = "null".data then .ok (.null, cs.drop 4, pos + 4)
      else if cs.take 4 = "true".data then .ok (.bool true, cs.drop 4, pos + 4)
      else if cs.take 5 = "false".data then .ok (.bool false, cs.drop 5, pos + 5)
      else
        match matchNumber cs pos with
        | some (v, r, p) => .ok (.int v, r, p)
        | none =>
          if cs.take 3 = "NaN".data then .ok (.nan, cs.drop 3, pos + 3)
          else if cs.take 8 = "Infinity".data then .ok (.infinity, cs.drop 8, pos + 8)
          else if cs.take 9 = "-Infinity".data then .ok (.negInfinity, cs.drop 9, pos + 9)
          else .error ("Expecting value", pos)

termination_by structural fuel

/-- `json.decoder.JSONObject`, entered just after the `{`: skip whitespace,
accept an immediate `}` (empty object) or require the opening quote of a
property name. -/
def scanObject (fuel : Nat) (cs : List Char) (pos : Nat) :
    Except (String × Nat) (JsonValue × List Char × Nat) :=
  match fuel with
  | 0 => .error ("Expecting value", pos)
  | fuel + 1 =>
    match skipWs cs pos with
    | ('}' :: r, p) => .ok (.obj [], r, p + 1)
    | ('"' :: r, p) => objLoop fuel [] p r (p + 1)
    | (_, p) => .error ("Expecting property name enclosed in double quotes", p)

termination_by structural fuel

/-- The member loop of `json.decoder.JSONObject`: parse the property name
(the cursor is just after its opening quote), require `:`, parse the value,
then either close at `}` or require `,` followed by the next property
name. -/
def objLoop (fuel : Nat) (pairs : List (String × JsonValue)) (keyBegin : Nat)
    (cs : List Char) (pos : Nat) :
    Except (String × Nat) (JsonValue × List Char × Nat) :=
  match fuel with
  | 0 => .error ("Expecting value", pos)
  | fuel + 1 =>
    match scanString (cs.length + 1) keyBegin cs pos with
    | .error e => .error e
    | .ok (key, r1, p1) =>
      match skipWs r1 p1 with
      | (':' :: r2, p2) =>
        let (r3, p3) := skipWs r2 (p2 + 1)
        match scanValue fuel r3 p3 with
        | .error e => .error e
        | .ok (v, r4, p4) =>
          let pairs' := pairs ++ [(key, v)]
          match skipWs r4 p4 with
          | ('}' :: r5, p5) => .ok (.obj (dictOfPairs pairs'), r5, p5 + 1)
          | (',' :: r5, p5) =>
            match skipWs r5 (p5 + 1) with
            | ('"' :: r6, p6) => objLoop fuel pairs' p6 r6 (p6 + 1)
            | (_, p6) => .error ("Expecting property name enclosed in double quotes", p6)
          | (_, p5) => .error ("Expecting ',' delimiter", p5)
      | (_, p2) => .error ("Expecting ':' delimiter", p2)

termination_by structural fuel

/-- `json.decoder.JSONArray`, entered just after the `[`: skip whitespace,
accept an immediate `]`, otherwise parse elements. -/
def scanArray (fuel : Nat) (cs : List Char) (pos : Nat) :
    Except (String × Nat) (JsonValue × List Char × Nat) :=
  match fuel with
  | 0 => .error ("Expecting value", pos)
  | fuel + 1 =>
    match skipWs cs pos with
    | (']' :: r, p) => .ok (.arr [], r, p + 1)
    | (r, p) => arrLoop fuel [] r p

termination_by structural fuel

/-- The element loop of `json.decoder.JSONArray`: parse a value, then close
at `]` or require `,` before the next element. -/
def arrLoop (fuel : Nat) (vals : List JsonValue) (cs : List Char) (pos : Nat) :
    Except (String × Nat) (JsonValue × List Char × Nat) :=
  match fuel with
  | 0 => .error ("Expecting value", pos)
  | fuel + 1 =>
    match scanValue fuel cs pos with
    | .error e => .error e
    | .ok (v, r1, p1) =>
      match skipWs r1 p1 with
      | (']' :: r2, p2) => .ok (.arr (vals ++ [v]), r2, p2 + 1)
      | (',' :: r2, p2) =>
        let (r3, p3) := skipWs r2 (p2 + 1)
        arrLoop fuel (vals ++ [v]) r3 p3
      | (_, p2) => .error ("Expecting ',' delimiter", p2)

termination_by structural fuel
end

/-- `json.loads` (via `JSONDecoder.decode`): skip leading whitespace, scan
one value, skip trailing whitespace, and reject any `Extra data`.  Errors
carry the formatted `JSONDecodeError` message. -/
def json_loads (s : String) : Except String JsonValue :=
  let start := skipWs s.data 0
  match scanValue (4 * s.data.length + 8) start.1 start.2 with
  | .error ep => .error (jsonErrFmt s ep.1 ep.2)
  | .ok (v, rest, pos) =>
    match skipWs rest pos with
    | ([], _) => .ok v
    | (_, p) => .error (jsonErrFmt s "Extra data" p)

/-- `parse_json_content` from `compare_json_app.py`: falsy (empty) content
returns `(None, None)`; otherwise `json.loads` is tried, a success returns
`(data, None)`, and a `JSONDecodeError` returns
`(None, "Invalid JSON format: " + str(e))`.  (The generic `except Exception`
arm is unreachable: `json.loads` of a `str` raises only `JSONDecodeError`.) -/
def parse_json_content (content : String) : Option JsonValue × Option String :=
  if content = "" then (none, none)
  else
    match json_loads content with
    | .ok data => (some data, none)
    | .error e => (none, some ("Invalid JSON format: " ++ e))

theorem range'_succ_right (s n : Nat) : List.range' s (n + 1) = List.range' s n ++ [s + n] := by
  induction n generalizing s with
  | zero => simp [List.range']
  | succ n ih =>
    rw [List.range'_succ, ih (s + 1), List.range'_succ]
    simp [Nat.add_assoc, Nat.add_comm 1 n]

theorem runlen_self_diag (x : List String) :
    ∀ i, i < x.length → runlen x x 0 0 i i = i + 1 := by
  intro i
  induction i with
  | zero =>
    intro h
    rw [runlen, if_pos ⟨rfl, Nat.le_refl 0, h, h, rfl⟩]
  | succ i ih =>
    intro h
    rw [runlen, if_pos ⟨Nat.zero_le _, Nat.zero_le _, h, h, rfl⟩, ih (by omega)]

theorem foldl_flmStep_size_le (a b : List String) (alo blo B : Nat) :
    ∀ (l : List (Nat × Nat)) (init : Nat × Nat × Nat),
      init.2.2 ≤ B → (∀ c ∈ l, runlen a b alo blo c.1 c.2 ≤ B) →
      (l.foldl (flmStep a b alo blo) init).2.2 ≤ B := by
  intro l
  induction l with
  | nil => intro init h _; exact h
  | cons c l ih =>
    intro init hinit hall
    rw [List.foldl_cons]
    apply ih
    · by_cases hk : init.2.2 < runlen a b alo blo c.1 c.2
      · simpa [flmStep, hk] using hall c (List.mem_cons_self c l)
      · simpa [flmStep, hk] using hinit
    · intro c' hc'
      exact hall c' (List.mem_cons_of_mem c hc')

theorem cells_zero_succ_split (m : Nat) :
    cells 0 (m + 1) 0 (m + 1) =
      (((List.range' 0 m).flatMap fun i => (List.range' 0 m ++ [m]).map fun j => (i, j)) ++
        (List.range' 0 m).map fun j => (m, j)) ++ [(m, m)] := by
  rw [cells]
  simp only [Nat.sub_zero]
  rw [range'_succ_right 0 m, List.flatMap_append]
  simp only [List.flatMap_cons, List.flatMap_nil, List.append_nil, Nat.zero_add]
  rw [List.map_append]
  simp [List.append_assoc]

theorem findLongestMatch_self (x : List String) (m : Nat) (hm : x.length = m + 1) :
    findLongestMatch x x 0 (m + 1) 0 (m + 1) = (0, 0, m + 1) := by
  rw [findLongestMatch, cells_zero_succ_split, List.foldl_append]
  have hbound :
      ((((List.range' 0 m).flatMap fun i => (List.range' 0 m ++ [m]).map fun j => (i, j)) ++
          (List.range' 0 m).map fun j => (m, j)).foldl (flmStep x x 0 0) (0, 0, 0)).2.2 ≤ m := by
    apply foldl_flmStep_size_le
    · exact Nat.zero_le m
    · intro c hc
      have hc' : c.1 < m ∨ c.2 < m := by
        rcases List.mem_append.mp hc with h | h
        · rcases List.mem_flatMap.mp h with ⟨i, hi, hmem⟩
          rcases List.mem_map.mp hmem with ⟨j, _, rfl⟩
          rw [List.mem_range'_1] at hi
          exact Or.inl (by omega)
        · rcases List.mem_map.mp h with ⟨j, hj, rfl⟩
          rw [List.mem_range'_1] at hj
          exact Or.inr (by omega)
      rcases runlen_spec x x 0 0 c.1 c.2 with h0 | hb
      · omega
      · omega
  rw [List.foldl_cons, List.foldl_nil]
  have hrun : runlen x x 0 0 m m = m + 1 := runlen_self_diag x m (by omega)
  rw [flmStep]
  simp only [hrun]
  rw [if_pos (by omega)]
  simp

theorem matchBlocks_degenerate (fuel : Nat) (a b : List String) (alo blo bhi : Nat) :
    matchBlocks fuel a b alo alo blo bhi = [] := by
  cases fuel with
  | zero => rfl
  | succ fuel =>
    rw [matchBlocks]
    simp [findLongestMatch, cells]

theorem matchBlocks_self (fuel : Nat) (x : List String) (m : Nat) (hm : x.length = m + 1) :
    matchBlocks (fuel + 1) x x 0 (m + 1) 0 (m + 1) = [(0, 0, m + 1)] := by
  rw [matchBlocks, findLongestMatch_self x m hm]
  simp [matchBlocks_degenerate]

theorem getMatchingBlocks_self (x : List String) (m : Nat) (hm : x.length = m + 1) :
    getMatchingBlocks x x = [(0, 0, m + 1), (m + 1, m + 1, 0)] := by
  rw [getMatchingBlocks, hm, matchBlocks_self (m + 1) x m hm]
  simp [collapseLoop]

theorem getOpcodes_self (x : List String) (m : Nat) (hm : x.length = m + 1) :
    getOpcodes x x = [⟨.equal, 0, m + 1, 0, m + 1⟩] := by
  rw [getOpcodes, getMatchingBlocks_self x m hm]
  rw [opcodesLoop, opcodesLoop, opcodesLoop]
  simp

theorem getGroupedOpcodes_self (x : List String) (m : Nat) (hm : x.length = m + 1) :
    getGroupedOpcodes 0 x x = [] := by
  rw [getGroupedOpcodes, getOpcodes_self x m hm]
  simp [fixLead, fixTrail, groupLoop]

theorem unifiedDiffLines_self (x : List String) : unifiedDiffLines x x = [] := by
  cases hx : x.length with
  | zero =>
    have hnil : x = [] := List.length_eq_zero.mp hx
    subst hnil
    rfl
  | succ m =>
    unfold unifiedDiffLines
    rw [getGroupedOpcodes_self x m hx]

theorem find_differences_of_dumps_eq (a b : JsonValue) (h : dumpsLines a = dumpsLines b) :
    find_differences a b = ⟨[], [], 0⟩ := by
  simp only [find_differences]
  rw [h, unifiedDiffLines_self]
  rfl

theorem sorted_keyLT_of_nodup (l : List (String × JsonValue))
    (hs : List.Sorted keyLE l) (hnd : (l.map Prod.fst).Nodup) : List.Sorted keyLT l := by
  have hne : l.Pairwise fun p q => p.1 ≠ q.1 := List.pairwise_map.mp hnd
  refine (hs.and hne).imp ?_
  rintro p q ⟨hle, hne'⟩
  cases h : charListLt p.1.data q.1.data with
  | true => exact h
  | false =>
    exfalso
    exact hne' (string_eq_of_data_eq _ _ (charListLt_eq_of_false _ _ hle h).symm)

theorem sortEntries_eq_of_perm (l l' : List (String × JsonValue))
    (hperm : List.Perm l l') (hnodup : (l.map Prod.fst).Nodup) :
    sortEntries l = sortEntries l' := by
  have hnodup' : (l'.map Prod.fst).Nodup := (hperm.map Prod.fst).nodup_iff.mp hnodup
  refine List.eq_of_perm_of_sorted (r := keyLT) ?_ ?_ ?_
  · exact ((List.perm_insertionSort keyLE l).trans hperm).trans
      (List.perm_insertionSort keyLE l').symm
  · exact sorted_keyLT_of_nodup _ (List.sorted_insertionSort keyLE l)
      (((List.perm_insertionSort keyLE l).map Prod.fst).nodup_iff.mpr hnodup)
  · exact sorted_keyLT_of_nodup _ (List.sorted_insertionSort keyLE l')
      (((List.perm_insertionSort keyLE l').map Prod.fst).nodup_iff.mpr hnodup')

theorem sortDeepEntries_eq_map (l : List (String × JsonValue)) :
    sortDeepEntries l = l.map fun e => (e.1, sortDeep e.2) := by
  induction l with
  | nil => rfl
  | cons e rest ih => simp [sortDeepEntries, ih]

theorem map_fst_sortDeepEntries (l : List (String × JsonValue)) :
    (sortDeepEntries l).map Prod.fst = l.map Prod.fst := by
  rw [sortDeepEntries_eq_map, List.map_map]
  rfl

theorem sortDeep_obj_perm (entries entries' : List (String × JsonValue))
    (hperm : List.Perm entries entries')
    (hnodup : (entries.map Prod.fst).Nodup) :
    sortDeep (JsonValue.obj entries) = sortDeep (JsonValue.obj entries') := by
  have hentry : List.Perm (sortDeepEntries entries) (sortDeepEntries entries') := by
    rw [sortDeepEntries_eq_map, sortDeepEntries_eq_map]
    exact hperm.map _
  have hnod : ((sortDeepEntries entries).map Prod.fst).Nodup := by
    rw [map_fst_sortDeepEntries]
    exact hnodup
  simp only [sortDeep]
  exact congrArg JsonValue.obj (sortEntries_eq_of_perm _ _ hentry hnod)

theorem dumpsLines_obj_perm (entries entries' : List (String × JsonValue))
    (hperm : List.Perm entries entries')
    (hnodup : (entries.map Prod.fst).Nodup) :
    dumpsLines (JsonValue.obj entries) = dumpsLines (JsonValue.obj entries') := by
  unfold dumpsLines
  rw [sortDeep_obj_perm entries entries' hperm hnodup]

/-- The `EditScript` of the spec: the opcodes linearised into per-line
Keep / Delete / Insert operations, a replace opcode emitting its deleted
lines before its inserted lines, exactly in `unified_diff`'s emission
order. -/
inductive EditOp where
  | keep (line : String) : EditOp
  | delete (line : String) : EditOp
  | insert (line : String) : EditOp
deriving DecidableEq, Repr

/-- The edit operations one opcode stands for. -/
def opcodeScript (a b : List String) (c : Opcode) : List EditOp :=
  match c.tag with
  | .equal => (pySlice a c.i1 c.i2).map EditOp.keep
  | .replace =>
    (pySlice a c.i1 c.i2).map EditOp.delete ++ (pySlice b c.j1 c.j2).map EditOp.insert
  | .delete => (pySlice a c.i1 c.i2).map EditOp.delete
  | .insert => (pySlice b c.j1 c.j2).map EditOp.insert

/-- The edit script underlying one comparison of canonical texts `a`, `b`. -/
def editScript (a b : List String) : List EditOp :=
  (getOpcodes a b).flatMap (opcodeScript a b)

/-- The text of an Insert operation. -/
def insertText : EditOp → Option String
  | .insert l => some l
  | _ => none

/-- The text of a Delete operation. -/
def deleteText : EditOp → Option String
  | .delete l => some l
  | _ => none

/-- The additions `find_differences` extracts from a line list: the tails of
the lines starting with `'+'`. -/
def plusLines (ls : List String) : List String :=
  (ls.filter fun l => startsWithChar l '+').map pyTail

/-- The removals `find_differences` extracts from a line list: the tails of
the lines starting with `'-'`. -/
def minusLines (ls : List String) : List String :=
  (ls.filter fun l => startsWithChar l '-').map pyTail

theorem startsWithChar_plus_plus (l : String) : startsWithChar ("+" ++ l) '+' = true := by
  cases l; rfl

theorem startsWithChar_minus_plus (l : String) : startsWithChar ("-" ++ l) '+' = false := by
  cases l; rfl

theorem startsWithChar_space_plus (l : String) : startsWithChar (" " ++ l) '+' = false := by
  cases l; rfl

theorem startsWithChar_plus_minus (l : String) : startsWithChar ("+" ++ l) '-' = false := by
  cases l; rfl

theorem startsWithChar_minus_minus (l : String) : startsWithChar ("-" ++ l) '-' = true := by
  cases l; rfl

theorem startsWithChar_space_minus (l : String) : startsWithChar (" " ++ l) '-' = false := by
  cases l; rfl

theorem startsWithChar_hunk_plus (r1 r2 : String) :
    startsWithChar (hunkHeader r1 r2) '+' = false := by
  cases r1; cases r2; rfl

theorem startsWithChar_hunk_minus (r1 r2 : String) :
    startsWithChar (hunkHeader r1 r2) '-' = false := by
  cases r1; cases r2; rfl

theorem pyTail_plus (l : String) : pyTail ("+" ++ l) = l := by cases l; rfl

theorem pyTail_minus (l : String) : pyTail ("-" ++ l) = l := by cases l; rfl

theorem plusLines_append (u v : List String) :
    plusLines (u ++ v) = plusLines u ++ plusLines v := by
  simp [plusLines, List.filter_append]

theorem minusLines_append (u v : List String) :
    minusLines (u ++ v) = minusLines u ++ minusLines v := by
  simp [minusLines, List.filter_append]

theorem plusLines_flatMap {α : Type} (f : α → List String) (l : List α) :
    plusLines (l.flatMap f) = l.flatMap fun x => plusLines (f x) := by
  induction l with
  | nil => rfl
  | cons x l ih => simp [List.flatMap_cons, plusLines_append, ih]

theorem minusLines_flatMap {α : Type} (f : α → List String) (l : List α) :
    minusLines (l.flatMap f) = l.flatMap fun x => minusLines (f x) := by
  induction l with
  | nil => rfl
  | cons x l ih => simp [List.flatMap_cons, minusLines_append, ih]

theorem plusLines_opcodeLines (a b : List String) (c : Opcode) :
    plusLines (opcodeLines a b c) = (opcodeScript a b c).filterMap insertText := by
  cases htag : c.tag <;>
    simp [opcodeLines, opcodeScript, plusLines, htag, List.filter_map, List.filterMap_map,
      List.filter_append, List.map_append, Function.comp_def, startsWithChar_space_plus,
      startsWithChar_plus_plus, startsWithChar_minus_plus, pyTail_plus, insertText]

theorem minusLines_opcodeLines (a b : List String) (c : Opcode) :
    minusLines (opcodeLines a b c) = (opcodeScript a b c).filterMap deleteText := by
  cases htag : c.tag <;>
    simp [opcodeLines, opcodeScript, minusLines, htag, List.filter_map, List.filterMap_map,
      List.filter_append, List.map_append, Function.comp_def, startsWithChar_space_minus,
      startsWithChar_plus_minus, startsWithChar_minus_minus, pyTail_minus, deleteText]

theorem plusLines_groupLines (a b : List String) (g : List Opcode) :
    plusLines (groupLines a b g) =
      g.flatMap fun c => (opcodeScript a b c).filterMap insertText := by
  rw [groupLines]
  have h1 : plusLines (hunkHeader
      (formatRangeUnified (g.headD ⟨.equal, 0, 0, 0, 0⟩).i1 (g.getLastD ⟨.equal, 0, 0, 0, 0⟩).i2)
      (formatRangeUnified (g.headD ⟨.equal, 0, 0, 0, 0⟩).j1 (g.getLastD ⟨.equal, 0, 0, 0, 0⟩).j2) ::
      g.flatMap (opcodeLines a b)) = plusLines (g.flatMap (opcodeLines a b)) := by
    simp [plusLines, List.filter_cons, startsWithChar_hunk_plus]
  rw [h1, plusLines_flatMap]
  exact List.flatMap_congr fun c _ => plusLines_opcodeLines a b c

theorem minusLines_groupLines (a b : List String) (g : List Opcode) :
    minusLines (groupLines a b g) =
      g.flatMap fun c => (opcodeScript a b c).filterMap deleteText := by
  rw [groupLines]
  have h1 : minusLines (hunkHeader
      (formatRangeUnified (g.headD ⟨.equal, 0, 0, 0, 0⟩).i1 (g.getLastD ⟨.equal, 0, 0, 0, 0⟩).i2)
      (formatRangeUnified (g.headD ⟨.equal, 0, 0, 0, 0⟩).j1 (g.getLastD ⟨.equal, 0, 0, 0, 0⟩).j2) ::
      g.flatMap (opcodeLines a b)) = minusLines (g.flatMap (opcodeLines a b)) := by
    simp [minusLines, List.filter_cons, startsWithChar_hunk_minus]
  rw [h1, minusLines_flatMap]
  exact List.flatMap_congr fun c _ => minusLines_opcodeLines a b c

/-- The non-context opcodes of an opcode list: everything but `equal`. -/
def changes (ops : List Opcode) : List Opcode :=
  ops.filter fun c => decide (c.tag ≠ Tag.equal)

theorem changes_append (u v : List Opcode) : changes (u ++ v) = changes u ++ changes v := by
  simp [changes, List.filter_append]

theorem changes_cons (c : Opcode) (ops : List Opcode) :
    changes (c :: ops) = changes [c] ++ changes ops := by
  rw [← List.singleton_append, changes_append]

theorem changes_singleton_equal (c : Opcode) (hc : c.tag = Tag.equal) : changes [c] = [] := by
  simp [changes, hc]

theorem changes_singleton_ne (c : Opcode) (hc : ¬ c.tag = Tag.equal) : changes [c] = [c] := by
  simp [changes, hc]

theorem changes_groupLoop :
    ∀ (codes : List Opcode) (g : List Opcode),
      changes (List.flatten (groupLoop 0 g codes)) = changes g ++ changes codes := by
  intro codes
  induction codes with
  | nil =>
    intro g
    match g with
    | [] => simp [groupLoop, changes]
    | [c] =>
      by_cases hc : c.tag = Tag.equal
      · simp [groupLoop, hc, changes]
      · simp [groupLoop, hc, changes]
    | c1 :: c2 :: gs => simp [groupLoop, changes]
  | cons c rest ih =>
    intro g
    by_cases hc : c.tag = Tag.equal ∧ 0 + 0 < c.i2 - c.i1
    · rw [groupLoop, if_pos hc]
      rw [List.flatten_cons, changes_append, changes_append, ih]
      rw [changes_singleton_equal _ (by simp [hc.1]),
        changes_singleton_equal _ (by simp [hc.1]),
        changes_cons c rest, changes_singleton_equal c hc.1]
      simp
    · rw [groupLoop, if_neg hc, ih, changes_append, changes_cons c rest]
      simp [List.append_assoc]

theorem changes_fixLead (n : Nat) (codes : List Opcode) :
    changes (fixLead n codes) = changes codes := by
  cases codes with
  | nil => rfl
  | cons c rest =>
    by_cases hc : c.tag = Tag.equal
    · rw [fixLead, if_pos hc, changes_cons, changes_cons c rest,
        changes_singleton_equal _ (by simp [hc]), changes_singleton_equal c hc]
    · rw [fixLead, if_neg hc]

theorem changes_fixTrail (n : Nat) : ∀ codes : List Opcode,
    changes (fixTrail n codes) = changes codes := by
  intro codes
  induction codes with
  | nil => rfl
  | cons c rest ih =>
    cases rest with
    | nil =>
      by_cases hc : c.tag = Tag.equal
      · rw [fixTrail, if_pos hc, changes_singleton_equal _ (by simp [hc]),
          changes_singleton_equal c hc]
      · rw [fixTrail, if_neg hc]
    | cons c2 rest2 =>
      rw [show fixTrail n (c :: c2 :: rest2) = c :: fixTrail n (c2 :: rest2) from rfl,
        changes_cons, ih, changes_cons c (c2 :: rest2)]

theorem changes_padCodes (codes : List Opcode) : changes (padCodes codes) = changes codes := by
  cases codes with
  | nil => simp [padCodes, changes]
  | cons c rest => rfl

theorem changes_flatten_grouped (a b : List String) :
    changes (List.flatten (getGroupedOpcodes 0 a b)) = changes (getOpcodes a b) := by
  rw [getGroupedOpcodes, changes_groupLoop, changes_fixTrail, changes_fixLead,
    changes_padCodes]
  rfl

theorem filterMap_flatMap {α β γ : Type} (l : List α) (f : α → List β) (g : β → Option γ) :
    (l.flatMap f).filterMap g = l.flatMap fun x => (f x).filterMap g := by
  induction l with
  | nil => rfl
  | cons x l ih => simp [List.flatMap_cons, List.filterMap_append, ih]

theorem flatten_flatMap {α β : Type} (L : List (List α)) (f : α → List β) :
    L.flatten.flatMap f = L.flatMap fun l => l.flatMap f := by
  induction L with
  | nil => rfl
  | cons l L ih => simp [ih]

theorem opcodeScript_filterMap_keepFree (a b : List String) (proj : EditOp → Option String)
    (hkeep : ∀ l, proj (EditOp.keep l) = none) (c : Opcode) (hc : c.tag = Tag.equal) :
    (opcodeScript a b c).filterMap proj = [] := by
  simp [opcodeScript, hc, List.filterMap_map, Function.comp_def, hkeep]

theorem flatMap_proj_changes (a b : List String) (proj : EditOp → Option String)
    (hkeep : ∀ l, proj (EditOp.keep l) = none) :
    ∀ ops : List Opcode,
      (ops.flatMap fun c => (opcodeScript a b c).filterMap proj) =
        (changes ops).flatMap fun c => (opcodeScript a b c).filterMap proj := by
  intro ops
  induction ops with
  | nil => rfl
  | cons c ops ih =>
    by_cases hc : c.tag = Tag.equal
    · rw [List.flatMap_cons, changes_cons, changes_singleton_equal c hc, List.nil_append,
        opcodeScript_filterMap_keepFree a b proj hkeep c hc, List.nil_append, ih]
    · rw [List.flatMap_cons, changes_cons, changes_singleton_ne c hc, List.singleton_append,
        List.flatMap_cons, ih]

theorem plusLines_diffBody (a b : List String) :
    plusLines (if 2 < (unifiedDiffLines a b).length then (unifiedDiffLines a b).drop 2
      else unifiedDiffLines a b) = (editScript a b).filterMap insertText := by
  have hscript : (editScript a b).filterMap insertText =
      (changes (getOpcodes a b)).flatMap fun c => (opcodeScript a b c).filterMap insertText := by
    rw [editScript, filterMap_flatMap]
    exact flatMap_proj_changes a b insertText (fun _ => rfl) (getOpcodes a b)
  rcases hg : getGroupedOpcodes 0 a b with _ | ⟨g, gs⟩
  · have hd : unifiedDiffLines a b = [] := by
      unfold unifiedDiffLines
      rw [hg]
    have hchanges : changes (getOpcodes a b) = [] := by
      rw [← changes_flatten_grouped a b, hg]
      rfl
    rw [hd, hscript, hchanges]
    rfl
  · have hd : unifiedDiffLines a b =
        "--- \n" :: "+++ \n" :: (g :: gs).flatMap (groupLines a b) := by
      unfold unifiedDiffLines
      rw [hg]
    have hlen : 2 < (unifiedDiffLines a b).length := by
      rw [hd]
      rw [List.flatMap_cons, groupLines]
      simp
    rw [if_pos hlen, hd]
    simp only [List.drop_succ_cons, List.drop_zero]
    rw [plusLines_flatMap]
    rw [List.flatMap_congr fun grp _ => plusLines_groupLines a b grp]
    rw [← flatten_flatMap]
    rw [flatMap_proj_changes a b insertText (fun _ => rfl)]
    rw [← hg, changes_flatten_grouped a b, ← hscript]

theorem minusLines_diffBody (a b : List String) :
    minusLines (if 2 < (unifiedDiffLines a b).length then (unifiedDiffLines a b).drop 2
      else unifiedDiffLines a b) = (editScript a b).filterMap deleteText := by
  have hscript : (editScript a b).filterMap deleteText =
      (changes (getOpcodes a b)).flatMap fun c => (opcodeScript a b c).filterMap deleteText := by
    rw [editScript, filterMap_flatMap]
    exact flatMap_proj_changes a b deleteText (fun _ => rfl) (getOpcodes a b)
  rcases hg : getGroupedOpcodes 0 a b with _ | ⟨g, gs⟩
  · have hd : unifiedDiffLines a b = [] := by
      unfold unifiedDiffLines
      rw [hg]
    have hchanges : changes (getOpcodes a b) = [] := by
      rw [← changes_flatten_grouped a b, hg]
      rfl
    rw [hd, hscript, hchanges]
    rfl
  · have hd : unifiedDiffLines a b =
        "--- \n" :: "+++ \n" :: (g :: gs).flatMap (groupLines a b) := by
      unfold unifiedDiffLines
      rw [hg]
    have hlen : 2 < (unifiedDiffLines a b).length := by
      rw [hd]
      rw [List.flatMap_cons, groupLines]
      simp
    rw [if_pos hlen, hd]
    simp only [List.drop_succ_cons, List.drop_zero]
    rw [minusLines_flatMap]
    rw [List.flatMap_congr fun grp _ => minusLines_groupLines a b grp]
    rw [← flatten_flatMap]
    rw [flatMap_proj_changes a b deleteText (fun _ => rfl)]
    rw [← hg, changes_flatten_grouped a b, ← hscript]

/-- C1: for every JSON object and every permutation of its (distinct-keyed)
key-value pairs, the canonical rendering `json.dumps(..., sort_keys=True,
indent=2).splitlines()` is identical, the comparison of the two objects
reports no changes, and concretely `find_differences({"a": 1, "b": 2},
{"b": 2, "a": 1})` yields `total_changes = 0`. -/
theorem claim_C1_key_order_invariance (entries entries' : List (String × JsonValue))
    (hperm : List.Perm entries entries')
    (hnodup : (entries.map Prod.fst).Nodup) :
    dumpsLines (JsonValue.obj entries) = dumpsLines (JsonValue.obj entries') ∧
    find_differences (JsonValue.obj entries) (JsonValue.obj entries') = ⟨[], [], 0⟩ ∧
    (find_differences (JsonValue.obj [("a", JsonValue.int 1), ("b", JsonValue.int 2)])
        (JsonValue.obj [("b", JsonValue.int 2), ("a", JsonValue.int 1)])).total_changes = 0 := by
  have h := dumpsLines_obj_perm entries entries' hperm hnodup
  exact ⟨h, find_differences_of_dumps_eq _ _ h, by decide⟩

/-- C1, instantiated: the two-key object and its swapped form canonicalize
identically and compare with zero changes. -/
theorem claim_C1_key_order_invariance_witness :
    dumpsLines (JsonValue.obj [("a", JsonValue.int 1), ("b", JsonValue.int 2)]) =
        dumpsLines (JsonValue.obj [("b", JsonValue.int 2), ("a", JsonValue.int 1)]) ∧
    find_differences (JsonValue.obj [("a", JsonValue.int 1), ("b", JsonValue.int 2)])
        (JsonValue.obj [("b", JsonValue.int 2), ("a", JsonValue.int 1)]) = ⟨[], [], 0⟩ ∧
    (find_differences (JsonValue.obj [("a", JsonValue.int 1), ("b", JsonValue.int 2)])
        (JsonValue.obj [("b", JsonValue.int 2), ("a", JsonValue.int 1)])).total_changes = 0 :=
  claim_C1_key_order_invariance _ _ (List.Perm.swap _ _ _) (by decide)

/-- C2: the comparison is a pure function of its two arguments — evaluating
it twice on the same pair yields the identical summary (purity, absence of
I/O, global state and randomness are intrinsic to the functional embedding:
`find_differences` reads nothing but its arguments), and the summary's
`total_changes` is computed from its own `added`/`removed` fields alone. -/
theorem claim_C2_determinism (a b : JsonValue) :
    find_differences a b = find_differences a b ∧
    (find_differences a b).total_changes =
      (find_differences a b).added_to_json2.length +
        (find_differences a b).removed_from_json1.length := by
  refine ⟨rfl, ?_⟩
  simp only [find_differences]

/-- C3: comparing any JSON value with itself yields zero total changes and
empty added/removed lists. -/
theorem claim_C3_identity (v : JsonValue) :
    (find_differences v v).total_changes = 0 ∧
    (find_differences v v).added_to_json2 = [] ∧
    (find_differences v v).removed_from_json1 = [] := by
  rw [find_differences_of_dumps_eq v v rfl]
  exact ⟨rfl, rfl, rfl⟩

/-- C4: for `a = {"x": 1}` and `b = {"x": 2}` the comparison removes exactly
the line `  "x": 1`, adds exactly `  "x": 2` (two-space indentation), and
counts 2 total changes. -/
theorem claim_C4_changed_value :
    find_differences (JsonValue.obj [("x", JsonValue.int 1)])
        (JsonValue.obj [("x", JsonValue.int 2)]) =
      { added_to_json2 := ["  \"x\": 2"]
        removed_from_json1 := ["  \"x\": 1"]
        total_changes := 2 } := by
  decide

/-- C5 counterexample: for `a = {}` and `b = {"k": "v"}` the removed list is
NOT empty, contrary to the claim — Python renders the empty object as the
single line `{}`, which has no counterpart in `b`'s rendering and is
therefore removed. -/
theorem claim_C5_empty_object_counterexample :
    (find_differences (JsonValue.obj [])
        (JsonValue.obj [("k", JsonValue.str "v")])).removed_from_json1 ≠ [] := by
  decide

/-- C5 amended: `{}` is rendered on a single line (empty containers are the
one-line exceptions to multi-line rendering), so comparing `{}` against
`{"k": "v"}` removes that line, adds all three rendered lines of `b`, and
totals 4 changes. -/
theorem claim_C5_empty_object_amended :
    find_differences (JsonValue.obj []) (JsonValue.obj [("k", JsonValue.str "v")]) =
      { added_to_json2 := ["\x7b", "  \"k\": \"v\"", "\x7d"]
        removed_from_json1 := ["\x7b\x7d"]
        total_changes := 4 } := by
  decide

/-- C6 counterexample: swapping the arguments can change `total_changes` —
for `a = [[1], [2, 1]]` and `b = [[2, 1], [1]]`, `compare(a, b)` counts 2
changes but `compare(b, a)` counts 6 (`SequenceMatcher`'s tie-breaking
between equally long matching blocks is position-dependent). -/
theorem claim_C6_symmetry_counterexample :
    (find_differences
        (JsonValue.arr [JsonValue.arr [JsonValue.int 1],
          JsonValue.arr [JsonValue.int 2, JsonValue.int 1]])
        (JsonValue.arr [JsonValue.arr [JsonValue.int 2, JsonValue.int 1],
          JsonValue.arr [JsonValue.int 1]])).total_changes ≠
      (find_differences
        (JsonValue.arr [JsonValue.arr [JsonValue.int 2, JsonValue.int 1],
          JsonValue.arr [JsonValue.int 1]])
        (JsonValue.arr [JsonValue.arr [JsonValue.int 1],
          JsonValue.arr [JsonValue.int 2, JsonValue.int 1]])).total_changes := by
  decide

/-- C6 amended: swap-symmetry is not guaranteed in general.  It does hold
for the spec's concrete scenario 2 (`{"x": 1}` vs `{"x": 2}`), where the
totals agree and added/removed swap roles; on the counterexample pair
`[[1], [2, 1]]` vs `[[2, 1], [1]]` the totals are 2 and 6 respectively. -/
theorem claim_C6_symmetry_amended :
    ((find_differences (JsonValue.obj [("x", JsonValue.int 1)])
        (JsonValue.obj [("x", JsonValue.int 2)])).total_changes =
      (find_differences (JsonValue.obj [("x", JsonValue.int 2)])
        (JsonValue.obj [("x", JsonValue.int 1)])).total_changes ∧
    (find_differences (JsonValue.obj [("x", JsonValue.int 1)])
        (JsonValue.obj [("x", JsonValue.int 2)])).added_to_json2 =
      (find_differences (JsonValue.obj [("x", JsonValue.int 2)])
        (JsonValue.obj [("x", JsonValue.int 1)])).removed_from_json1) ∧
    (find_differences
        (JsonValue.arr [JsonValue.arr [JsonValue.int 1],
          JsonValue.arr [JsonValue.int 2, JsonValue.int 1]])
        (JsonValue.arr [JsonValue.arr [JsonValue.int 2, JsonValue.int 1],
          JsonValue.arr [JsonValue.int 1]])).total_changes = 2 ∧
    (find_differences
        (JsonValue.arr [JsonValue.arr [JsonValue.int 2, JsonValue.int 1],
          JsonValue.arr [JsonValue.int 1]])
        (JsonValue.arr [JsonValue.arr [JsonValue.int 1],
          JsonValue.arr [JsonValue.int 2, JsonValue.int 1]])).total_changes = 6 := by
  refine ⟨⟨?_, ?_⟩, ?_, ?_⟩ <;> decide

/-- C7: the summary is the order-preserving partition of the edit script —
`added` is exactly the Insert lines in encountered order, `removed` exactly
the Delete lines in encountered order (Keep lines appear in neither), and
`total_changes = |added| + |removed|`. -/
theorem claim_C7_delta_partition (json1 json2 : JsonValue) :
    (find_differences json1 json2).added_to_json2 =
      (editScript (dumpsLines json1) (dumpsLines json2)).filterMap insertText ∧
    (find_differences json1 json2).removed_from_json1 =
      (editScript (dumpsLines json1) (dumpsLines json2)).filterMap deleteText ∧
    (find_differences json1 json2).total_changes =
      (find_differences json1 json2).added_to_json2.length +
        (find_differences json1 json2).removed_from_json1.length := by
  refine ⟨?_, ?_, ?_⟩
  · have key := plusLines_diffBody (dumpsLines json1) (dumpsLines json2)
    rw [plusLines] at key
    simp only [find_differences]
    exact key
  · have key := minusLines_diffBody (dumpsLines json1) (dumpsLines json2)
    rw [minusLines] at key
    simp only [find_differences]
    exact key
  · simp only [find_differences]

/-- C8 counterexample: a non-finite number is NOT reported as an error —
`json.dumps` (with its default `allow_nan=True`) silently coerces `NaN` into
the textual token `NaN` and the comparison proceeds normally. -/
theorem claim_C8_nan_counterexample :
    dumpsLines (JsonValue.obj [("x", JsonValue.nan)]) = ["\x7b", "  \"x\": NaN", "\x7d"] ∧
    find_differences (JsonValue.obj [("x", JsonValue.nan)])
        (JsonValue.obj [("x", JsonValue.int 1)]) =
      { added_to_json2 := ["  \"x\": 1"]
        removed_from_json1 := ["  \"x\": NaN"]
        total_changes := 2 } := by
  constructor <;> decide

/-- C8 amended: canonicalization is total and never fails — non-finite
numeric values are silently coerced to the literal tokens `NaN`,
`Infinity` and `-Infinity` (the `allow_nan=True` default of `json.dumps`);
no `EncodingError` exists in the code. -/
theorem claim_C8_nan_amended :
    dumpsLines JsonValue.nan = ["NaN"] ∧
    dumpsLines JsonValue.infinity = ["Infinity"] ∧
    dumpsLines JsonValue.negInfinity = ["-Infinity"] := by
  refine ⟨?_, ?_, ?_⟩ <;> decide

/-- C9 counterexample: the empty string is malformed JSON (`json.loads("")`
raises `Expecting value`), yet `parse_json_content("")` returns neither a
value nor an error — the falsy-content guard fires before parsing, so "for
every malformed input text the parse operation returns an error" is false
at the input `""`. -/
theorem claim_C9_parse_error_counterexample :
    json_loads "" = .error "Expecting value: line 1 column 1 (char 0)" ∧
    parse_json_content "" = (none, none) :=
  ⟨rfl, rfl⟩

/-- C9 amended: for every NONEMPTY input, `parse_json_content` returns the
parsed value and no error when `json.loads` succeeds, and no value plus an
error message that embeds the decode-failure detail (prefixed with
`Invalid JSON format: `) when `json.loads` fails; a well-formed input is
never empty, so the success arm needs no emptiness hypothesis.  Parse
failures are returned, never thrown, so the comparison simply does not
proceed. -/
theorem claim_C9_parse_error_amended (s : String) :
    (∀ v, json_loads s = .ok v → parse_json_content s = (some v, none)) ∧
    (s ≠ "" → ∀ e, json_loads s = .error e →
      parse_json_content s = (none, some ("Invalid JSON format: " ++ e))) := by
  constructor
  · intro v hv
    have hne : s ≠ "" := by
      intro h
      subst h
      have hempty : json_loads "" = .error "Expecting value: line 1 column 1 (char 0)" := rfl
      rw [hempty] at hv
      exact Except.noConfusion hv
    rw [parse_json_content, if_neg hne, hv]
  · intro hne e he
    rw [parse_json_content, if_neg hne, he]

/-- C9 amended, instantiated: a well-formed input returns its value with no
error, and a nonempty malformed input returns no value and the prefixed
decode detail. -/
theorem claim_C9_parse_error_amended_witness :
    parse_json_content "[1, 2]" = (some (JsonValue.arr [JsonValue.int 1, JsonValue.int 2]), none) ∧
    parse_json_content "\x7b" =
      (none, some "Invalid JSON format: Expecting property name enclosed in double quotes: line 1 column 2 (char 1)") :=
  ⟨(claim_C9_parse_error_amended "[1, 2]").1 _ rfl,
    (claim_C9_parse_error_amended "\x7b").2 (by decide) _ rfl⟩

/-- C10: the empty string (the only falsy `str`) is treated as absent input
rather than malformed input — `parse_json_content("")` returns neither a
value nor an error, so an empty text area silently produces no
comparison. -/
theorem claim_C10_empty_input : parse_json_content "" = (none, none) := rfl
